import Mathlib

/-!
Verification of the queue-OFI strategy engine (QueueOfiStrategy).

The development shallowly embeds the engine found in
src/strategy/QueueOfi.cpp and include/strategy/QueueOfi.hpp.
Doubles are modelled as rationals, the int32 sizes and int64 nanosecond
timestamps as integers.  The C++ file keeps four function-local `static`
variables (ofi_ewm, last_raw_sig, same_dir_count, last_flip_ts); these are
process-wide, shared by every strategy instance, so they are modelled as a
separate `StaticState` record threaded through the calls, while the member
fields of the class live in `InstState`.  A single-instance program threads
one `InstState` and the one `StaticState` together; a program with two
instances threads two `InstState`s through the same `StaticState`.
-/

namespace QueueOfi

/-- Position record from include/strategy/QueueOfi.hpp. -/
structure Position where
  side : ℤ := 0
  entry_px : ℚ := 0
  entry_ts : ℤ := 0
deriving DecidableEq, Repr

/-- Configuration record OfiParams from include/strategy/QueueOfi.hpp,
with the default values of that header. -/
structure OfiParams where
  theta_ofi : ℚ := 5
  theta_imb : ℚ := 1/4
  tick_size : ℚ := 1/4
  tick_value : ℚ := 25/2
  slip_ticks : ℤ := 1
  max_hold_ns : ℤ := 2000000000
  min_spread_ticks : ℤ := 1
  min_bid_sz : ℤ := 2
  min_ask_sz : ℤ := 2
  persist_updates : ℤ := 2
  min_flip_cooldown_ns : ℤ := 50000000
  rth_only : Bool := true
  fill_at_touch_when_spread1 : Bool := true
  trade_confirm_ns : ℤ := 100000000
deriving DecidableEq, Repr

/-- QuoteL1 from include/common/Types.hpp. -/
structure QuoteL1 where
  ts : ℤ := 0
  bid_px : ℚ := 0
  ask_px : ℚ := 0
  bid_sz : ℤ := 0
  ask_sz : ℤ := 0
deriving DecidableEq, Repr

/-- Aggressor side of a trade, from include/common/Types.hpp. -/
inductive Aggressor where
  | Unknown
  | Buy
  | Sell
deriving DecidableEq, Repr

/-- Trade from include/common/Types.hpp. -/
structure Trade where
  ts : ℤ := 0
  px : ℚ := 0
  sz : ℤ := 0
  side : Aggressor := .Unknown
deriving DecidableEq, Repr

/-- Member fields of class QueueOfiStrategy (the per-instance state). -/
structure InstState where
  last_bid_px : ℚ := 0
  last_ask_px : ℚ := 0
  last_bid_sz : ℤ := 0
  last_ask_sz : ℤ := 0
  have_prev : Bool := false
  ofi_l1 : ℚ := 0
  last_trade_ts : ℤ := 0
  last_trade_dir : ℤ := 0
  position : Position := {}
deriving DecidableEq, Repr

/-- The function-local `static` variables of QueueOfi.cpp: `ofi_ewm` in
update_ofi_l1, `last_raw_sig` and `same_dir_count` in on_quote, and
`last_flip_ts` in act_and_fill.  They are initialised once per process and
shared by every instance of the class. -/
structure StaticState where
  ofi_ewm : ℚ := 0
  last_raw_sig : ℤ := 0
  same_dir_count : ℤ := 0
  last_flip_ts : ℤ := 0
deriving DecidableEq, Repr

/-- Helper spread_is_one_tick of QueueOfi.cpp:
fabs((ask_px - bid_px) - tick) is at most 1e-9. -/
def spread_is_one_tick (bid_px ask_px tick : ℚ) : Bool :=
  decide (|(ask_px - bid_px) - tick| ≤ 1/1000000000)

/-- Accessor mid of QueueOfiStrategy: 0.5 * (last_bid_px + last_ask_px). -/
def mid (s : InstState) : ℚ :=
  (1/2) * (s.last_bid_px + s.last_ask_px)

/-- Accessor micro of QueueOfiStrategy: size-weighted microprice with the
sizes floored at 1. -/
def micro (s : InstState) : ℚ :=
  let Asz : ℚ := ((max 1 s.last_ask_sz : ℤ) : ℚ)
  let Bsz : ℚ := ((max 1 s.last_bid_sz : ℤ) : ℚ)
  (s.last_ask_px * Bsz + s.last_bid_px * Asz) / (Asz + Bsz)

/-- Accessor imbalance_ticks of QueueOfiStrategy: normalized queue
imbalance (bid_sz - ask_sz) / max(1, bid_sz + ask_sz). -/
def imbalance_ticks (s : InstState) : ℚ :=
  let denom : ℚ := ((max 1 (s.last_bid_sz + s.last_ask_sz) : ℤ) : ℚ)
  ((s.last_bid_sz : ℚ) - (s.last_ask_sz : ℚ)) / denom

/-- Instantaneous L1 OFI, e_b - e_a, as computed in the body of
QueueOfiStrategy.update_ofi_l1 against the stored previous quote. -/
def ofi_inst (q : QuoteL1) (s : InstState) : ℚ :=
  let e_b : ℚ :=
    if s.last_bid_px < q.bid_px then (q.bid_sz : ℚ)
    else if q.bid_px < s.last_bid_px then -(s.last_bid_sz : ℚ)
    else (q.bid_sz : ℚ) - (s.last_bid_sz : ℚ)
  let e_a : ℚ :=
    if q.ask_px < s.last_ask_px then (q.ask_sz : ℚ)
    else if s.last_ask_px < q.ask_px then -(s.last_ask_sz : ℚ)
    else (s.last_ask_sz : ℚ) - (q.ask_sz : ℚ)
  e_b - e_a

/-- QueueOfiStrategy.update_ofi_l1: on the first quote the exposed value
ofi_l1 is set to 0 and the static accumulator is left alone; afterwards the
static EWMA accumulator is advanced with alpha = 0.20 and copied into
ofi_l1. -/
def update_ofi_l1 (q : QuoteL1) (s : InstState) (g : StaticState) :
    InstState × StaticState :=
  if s.have_prev = false then ({ s with ofi_l1 := 0 }, g)
  else
    let ewm := (1 - 1/5) * g.ofi_ewm + (1/5) * ofi_inst q s
    ({ s with ofi_l1 := ewm }, { g with ofi_ewm := ewm })

/-- The raw directional reading of QueueOfiStrategy.desired_position,
before the optional trade-confirmation gate: structural gates (spread of
exactly one tick, minimum sizes), then the three-way threshold test. -/
def raw_dir (P : OfiParams) (s : InstState) : ℤ :=
  if spread_is_one_tick s.last_bid_px s.last_ask_px P.tick_size = false then 0
  else if s.last_bid_sz < P.min_bid_sz ∨ s.last_ask_sz < P.min_ask_sz then 0
  else
    let micro_skew_ticks := (micro s - mid s) / P.tick_size
    let long_raw :=
      P.theta_ofi < s.ofi_l1 ∧ P.theta_imb < imbalance_ticks s ∧
        (1/10 : ℚ) < micro_skew_ticks
    let short_raw :=
      s.ofi_l1 < -P.theta_ofi ∧ imbalance_ticks s < -P.theta_imb ∧
        micro_skew_ticks < -(1/10 : ℚ)
    if short_raw then -1 else if long_raw then 1 else 0

/-- QueueOfiStrategy.desired_position: the raw reading, suppressed by the
trade-confirmation gate when trade_confirm_ns is positive: the last seen
trade direction must equal the raw direction and a trade must have been
seen (last_trade_ts nonzero).  No timestamps are compared. -/
def desired_position (P : OfiParams) (s : InstState) : ℤ :=
  let raw := raw_dir P s
  if raw = 0 then 0
  else if 0 < P.trade_confirm_ns then
    if s.last_trade_dir ≠ raw then 0
    else if s.last_trade_ts = 0 then 0
    else raw
  else raw

/-- The overwrite of the stored L1 reference performed by
QueueOfiStrategy.on_quote after the OFI update. -/
def quote_upd (q : QuoteL1) (s : InstState) : InstState :=
  { s with last_bid_px := q.bid_px, last_ask_px := q.ask_px,
           last_bid_sz := q.bid_sz, last_ask_sz := q.ask_sz,
           have_prev := true }

/-- Persistence bookkeeping of QueueOfiStrategy.on_quote on the static
variables: raw 0 clears direction and counter; a repeat increments the
counter; a new nonzero direction stores it with counter 1. -/
def debounce_next (raw_sig : ℤ) (g : StaticState) : StaticState :=
  if raw_sig = 0 then { g with last_raw_sig := 0, same_dir_count := 0 }
  else if raw_sig = g.last_raw_sig then
    { g with same_dir_count := g.same_dir_count + 1 }
  else { g with last_raw_sig := raw_sig, same_dir_count := 1 }

/-- The raw signal seen while processing one quote: desired_position
evaluated on the state after the OFI update and the L1 overwrite. -/
def quote_raw (P : OfiParams) (q : QuoteL1) (s : InstState)
    (g : StaticState) : ℤ :=
  desired_position P (quote_upd q (update_ofi_l1 q s g).1)

/-- QueueOfiStrategy.on_quote: update the OFI against the previous quote,
store the new L1 reference, run desired_position, advance the persistence
counters, and emit the raw direction only when it is nonzero and has now
been seen for at least persist_updates consecutive updates. -/
def on_quote (P : OfiParams) (q : QuoteL1) (s : InstState)
    (g : StaticState) : Option ℤ × InstState × StaticState :=
  let ug := update_ofi_l1 q s g
  let s2 := quote_upd q ug.1
  let raw_sig := desired_position P s2
  let g2 := debounce_next raw_sig ug.2
  (if raw_sig ≠ 0 ∧ P.persist_updates ≤ g2.same_dir_count
     then some raw_sig else none,
   s2, g2)

/-- QueueOfiStrategy.on_trade: record the trade timestamp and map the
aggressor to a direction (+1 buy, -1 sell, 0 unknown). -/
def on_trade (t : Trade) (s : InstState) : InstState :=
  { s with
    last_trade_ts := t.ts,
    last_trade_dir :=
      match t.side with
      | .Buy => 1
      | .Sell => -1
      | .Unknown => 0 }

/-- The per-leg slippage of QueueOfiStrategy.act_and_fill: half of
slip_ticks ticks, overridden to zero when the touch-fill flag is set, the
stored spread is one tick and both stored sizes meet the minimums. -/
def fill_slip (P : OfiParams) (s : InstState) : ℚ :=
  if P.fill_at_touch_when_spread1 = true ∧
     spread_is_one_tick s.last_bid_px s.last_ask_px P.tick_size = true ∧
     P.min_bid_sz ≤ s.last_bid_sz ∧ P.min_ask_sz ≤ s.last_ask_sz
  then 0
  else (1/2) * (P.slip_ticks : ℚ) * P.tick_size

/-- Realized PnL of closing the open position of `s` at mid `mid_px`, as
computed in both exit legs of QueueOfiStrategy.act_and_fill: the exit price
moves against the position by the slippage and the tick count is converted
to currency. -/
def close_pnl (P : OfiParams) (mid_px : ℚ) (s : InstState) : ℚ :=
  let exit := mid_px - (s.position.side : ℚ) * fill_slip P s
  let pnl_ticks := (exit - s.position.entry_px) / P.tick_size *
    (s.position.side : ℚ)
  pnl_ticks * P.tick_value

/-- QueueOfiStrategy.act_and_fill: forced time exit first; then, for a
present signal, the flip-cooldown block, the no-op case, and the
close-then-open transition, recording the static flip timestamp. -/
def act_and_fill (P : OfiParams) (ts : ℤ) (mid_px : ℚ) (sig : Option ℤ)
    (s : InstState) (g : StaticState) : ℚ × InstState × StaticState :=
  if s.position.side ≠ 0 ∧ P.max_hold_ns < ts - s.position.entry_ts then
    (close_pnl P mid_px s, { s with position := {} },
     { g with last_flip_ts := ts })
  else
    match sig with
    | none => (0, s, g)
    | some v =>
      if s.position.side ≠ 0 ∧ v ≠ 0 ∧ v ≠ s.position.side ∧
         ts - g.last_flip_ts < P.min_flip_cooldown_ns then
        (0, s, g)
      else if v = s.position.side then (0, s, g)
      else
        let realized := if s.position.side ≠ 0 then close_pnl P mid_px s
          else 0
        let s1 := if s.position.side ≠ 0 then { s with position := {} }
          else s
        let s2 := if v ≠ 0 then
            { s1 with position :=
              { side := v, entry_px := mid_px + (v : ℚ) * fill_slip P s,
                entry_ts := ts } }
          else s1
        (realized, s2, { g with last_flip_ts := ts })

/-- One on_quote call viewed as a state transformer (signal discarded). -/
def stepQuote (P : OfiParams) (st : InstState × StaticState)
    (q : QuoteL1) : InstState × StaticState :=
  (on_quote P q st.1 st.2).2

/-- A single freshly constructed instance in a fresh process, fed a list
of quotes through on_quote. -/
def runQuotes (P : OfiParams) (qs : List QuoteL1) :
    InstState × StaticState :=
  qs.foldl (stepQuote P) ({}, {})

/-- C4: with an open position, no forced time exit due, and a nonzero
actionable signal different from the current side, act_and_fill inside the
cooldown window returns 0 and leaves instance state and statics completely
unchanged; with the cooldown elapsed it closes the position, returns its
realized PnL, and opens the signalled position at this timestamp. -/
theorem flip_cooldown_c4 (P : OfiParams) (ts : ℤ) (mid_px : ℚ) (v : ℤ)
    (s : InstState) (g : StaticState)
    (hopen : s.position.side ≠ 0)
    (hforce : ¬ P.max_hold_ns < ts - s.position.entry_ts)
    (hv : v ≠ 0) (hopp : v ≠ s.position.side) :
    (ts - g.last_flip_ts < P.min_flip_cooldown_ns →
      act_and_fill P ts mid_px (some v) s g = (0, s, g)) ∧
    (P.min_flip_cooldown_ns ≤ ts - g.last_flip_ts →
      act_and_fill P ts mid_px (some v) s g =
        (close_pnl P mid_px s,
         { s with position :=
           { side := v, entry_px := mid_px + (v : ℚ) * fill_slip P s,
             entry_ts := ts } },
         { g with last_flip_ts := ts })) := by
  have hnot : ¬ (s.position.side ≠ 0 ∧
      P.max_hold_ns < ts - s.position.entry_ts) := fun h => hforce h.2
  constructor
  · intro hcd
    have hc : s.position.side ≠ 0 ∧ v ≠ 0 ∧ v ≠ s.position.side ∧
        ts - g.last_flip_ts < P.min_flip_cooldown_ns := ⟨hopen, hv, hopp, hcd⟩
    simp only [act_and_fill, if_neg hnot]
    rw [if_pos hc]
  · intro hcd
    have hnocd : ¬ (s.position.side ≠ 0 ∧ v ≠ 0 ∧ v ≠ s.position.side ∧
        ts - g.last_flip_ts < P.min_flip_cooldown_ns) :=
      fun h => absurd h.2.2.2 (not_lt.mpr hcd)
    simp only [act_and_fill, if_neg hnot, if_neg hnocd, if_neg hopp,
      if_pos hopen, if_pos hv]

/-- Concrete state for the C4 witness: an open long. -/
def s_c4 : InstState :=
  { position := { side := 1, entry_px := 5000, entry_ts := 0 } }

/-- Witness for C4 at concrete inputs: default parameters, open long,
opposite signal 1 ns after the last flip. -/
theorem flip_cooldown_c4_witness :
    act_and_fill {} 1 5000 (some (-1)) s_c4 {} = (0, s_c4, {}) :=
  (flip_cooldown_c4 {} 1 5000 (-1) s_c4 {} (by decide) (by decide)
    (by decide) (by decide)).1 (by decide)

/-- C5: with an open position past max_hold_ns, act_and_fill closes it
unconditionally whatever the signal argument is, records the flip
timestamp, and returns the realized PnL; consequently (for a nonnegative
max_hold_ns) no call ever leaves a position that was already past
max_hold_ns at the time of that call. -/
theorem forced_exit_c5 (P : OfiParams) :
    (∀ ts mid_px sig s g, s.position.side ≠ 0 →
      P.max_hold_ns < ts - s.position.entry_ts →
      act_and_fill P ts mid_px sig s g =
        (close_pnl P mid_px s, { s with position := {} },
         { g with last_flip_ts := ts })) ∧
    (∀ ts mid_px sig s g, 0 ≤ P.max_hold_ns →
      ((act_and_fill P ts mid_px sig s g).2.1.position.side = 0 ∨
       ¬ P.max_hold_ns <
          ts - (act_and_fill P ts mid_px sig s g).2.1.position.entry_ts)) := by
  constructor
  · intro ts mid_px sig s g h1 h2
    have hc : s.position.side ≠ 0 ∧ P.max_hold_ns < ts - s.position.entry_ts :=
      ⟨h1, h2⟩
    simp only [act_and_fill, if_pos hc]
  · intro ts mid_px sig s g hmax
    by_cases h1 : s.position.side ≠ 0 ∧ P.max_hold_ns < ts - s.position.entry_ts
    · left
      simp only [act_and_fill, if_pos h1]
    · have hsame : ∀ s0 : InstState, s0.position = s.position →
          (s0.position.side = 0 ∨
           ¬ P.max_hold_ns < ts - s0.position.entry_ts) := by
        intro s0 hs0
        rw [hs0]
        by_cases hz : s.position.side = 0
        · exact Or.inl hz
        · exact Or.inr fun hlt => h1 ⟨hz, hlt⟩
      cases sig with
      | none =>
        simp only [act_and_fill, if_neg h1]
        exact hsame s rfl
      | some v =>
        by_cases hcd : s.position.side ≠ 0 ∧ v ≠ 0 ∧ v ≠ s.position.side ∧
            ts - g.last_flip_ts < P.min_flip_cooldown_ns
        · simp only [act_and_fill, if_neg h1, if_pos hcd]
          exact hsame s rfl
        · by_cases hveq : v = s.position.side
          · simp only [act_and_fill, if_neg h1, if_neg hcd, if_pos hveq]
            exact hsame s rfl
          · by_cases hv0 : v = 0
            · by_cases hz : s.position.side = 0
              · exact absurd (hv0.trans hz.symm) hveq
              · left
                have hnh : ¬ P.max_hold_ns < ts - s.position.entry_ts :=
                  fun hlt => h1 ⟨hz, hlt⟩
                simp [act_and_fill, if_neg h1, if_neg hcd, if_neg hveq,
                  hv0, hz, hnh, if_neg (Ne.symm hz)]
            · right
              simp only [act_and_fill, if_neg h1, if_neg hcd, if_neg hveq,
                if_pos hv0]
              simpa using not_lt.mpr hmax

/-- Concrete state for the C5 witness: a long opened at time 0. -/
def s_c5 : InstState :=
  { position := { side := 1, entry_px := 5000, entry_ts := 0 } }

/-- Witness for C5 at concrete inputs: default parameters (max hold 2 s)
and a call 3 s after entry, carrying a keep-long signal. -/
theorem forced_exit_c5_witness :
    act_and_fill {} 3000000000 5000 (some 1) s_c5 {} =
      (close_pnl {} 5000 s_c5, { s_c5 with position := {} },
       { StaticState.mk 0 0 0 3000000000 with last_flip_ts := 3000000000 }) :=
  (forced_exit_c5 {}).1 3000000000 5000 (some 1) s_c5 {} (by decide)
    (by decide)

/-- C6: when touch-fill is enabled, the stored spread is exactly one tick
(within 1e-9) and both stored sizes meet the minimums, the slippage is
zero and every fill of act_and_fill executes at the raw mid: the close
PnL uses the raw mid as exit price, an entry fills at the raw mid, and
both the forced time exit and a signal-driven exit return the PnL priced
at the raw mid. -/
theorem touch_fill_c6 (P : OfiParams) (s : InstState)
    (h1 : P.fill_at_touch_when_spread1 = true)
    (h2 : spread_is_one_tick s.last_bid_px s.last_ask_px P.tick_size = true)
    (h3 : P.min_bid_sz ≤ s.last_bid_sz) (h4 : P.min_ask_sz ≤ s.last_ask_sz) :
    fill_slip P s = 0 ∧
    (∀ mid_px, close_pnl P mid_px s =
      (mid_px - s.position.entry_px) / P.tick_size * (s.position.side : ℚ) *
        P.tick_value) ∧
    (∀ ts mid_px v g, s.position.side = 0 → v ≠ 0 →
      (act_and_fill P ts mid_px (some v) s g).2.1.position.entry_px =
        mid_px) ∧
    (∀ ts mid_px sig g, s.position.side ≠ 0 →
      P.max_hold_ns < ts - s.position.entry_ts →
      (act_and_fill P ts mid_px sig s g).1 =
        (mid_px - s.position.entry_px) / P.tick_size *
          (s.position.side : ℚ) * P.tick_value) ∧
    (∀ ts mid_px g, s.position.side ≠ 0 →
      ¬ P.max_hold_ns < ts - s.position.entry_ts →
      (act_and_fill P ts mid_px (some 0) s g).1 =
        (mid_px - s.position.entry_px) / P.tick_size *
          (s.position.side : ℚ) * P.tick_value) := by
  have hslip : fill_slip P s = 0 := by
    have hc : P.fill_at_touch_when_spread1 = true ∧
        spread_is_one_tick s.last_bid_px s.last_ask_px P.tick_size = true ∧
        P.min_bid_sz ≤ s.last_bid_sz ∧ P.min_ask_sz ≤ s.last_ask_sz :=
      ⟨h1, h2, h3, h4⟩
    unfold fill_slip
    rw [if_pos hc]
  have hclose : ∀ mid_px, close_pnl P mid_px s =
      (mid_px - s.position.entry_px) / P.tick_size *
        (s.position.side : ℚ) * P.tick_value := by
    intro mid_px
    simp only [close_pnl, hslip]
    ring
  refine ⟨hslip, hclose, ?_, ?_, ?_⟩
  · intro ts mid_px v g hz hv
    have hno1 : ¬ (s.position.side ≠ 0 ∧
        P.max_hold_ns < ts - s.position.entry_ts) := fun h => h.1 hz
    have hno2 : ¬ (s.position.side ≠ 0 ∧ v ≠ 0 ∧ v ≠ s.position.side ∧
        ts - g.last_flip_ts < P.min_flip_cooldown_ns) := fun h => h.1 hz
    have hne : ¬ v = s.position.side := fun h => hv (h.trans hz)
    simp only [act_and_fill, if_neg hno1, if_neg hno2, if_neg hne,
      if_pos hv, if_neg (fun h : s.position.side ≠ 0 => h hz)]
    simp [hslip]
  · intro ts mid_px sig g hz hhold
    have hc : s.position.side ≠ 0 ∧ P.max_hold_ns < ts - s.position.entry_ts :=
      ⟨hz, hhold⟩
    simp only [act_and_fill, if_pos hc]
    exact hclose mid_px
  · intro ts mid_px g hz hhold
    have hno1 : ¬ (s.position.side ≠ 0 ∧
        P.max_hold_ns < ts - s.position.entry_ts) := fun h => hhold h.2
    have hno2 : ¬ (s.position.side ≠ 0 ∧ (0 : ℤ) ≠ 0 ∧
        (0 : ℤ) ≠ s.position.side ∧
        ts - g.last_flip_ts < P.min_flip_cooldown_ns) := fun h => h.2.1 rfl
    have hne : ¬ (0 : ℤ) = s.position.side := fun h => hz h.symm
    simp only [act_and_fill, if_neg hno1, if_neg hno2, if_neg hne,
      if_pos hz]
    exact hclose mid_px

/-- Concrete state for the C6 witness: one-tick spread, adequate sizes. -/
def s_c6 : InstState :=
  { last_bid_px := 100, last_ask_px := 100 + 1/4, last_bid_sz := 5,
    last_ask_sz := 5,
    position := { side := 1, entry_px := 100, entry_ts := 0 } }

/-- Witness for C6 at concrete inputs: default parameters (touch-fill
enabled, tick 0.25, minimum sizes 2), spread exactly one tick. -/
theorem touch_fill_c6_witness : fill_slip {} s_c6 = 0 :=
  (touch_fill_c6 {} s_c6 rfl
    (by norm_num [spread_is_one_tick, s_c6])
    (by decide) (by decide)).1

/-- Parameters of the concrete C7 scenario: header defaults except that
touch-fill is disabled. -/
def P_c7 : OfiParams := { fill_at_touch_when_spread1 := false }

/-- C7: when the touch-fill override does not apply, the per-leg slippage
is 0.5 * slip_ticks * tick_size; an entry fills at mid plus side times
that slippage, an exit at mid minus side times it; every close returns
((exit - entry) / tick_size) * side * tick_value; and in the concrete
scenario (tick 0.25, tick value 12.5, one slip tick, touch-fill disabled)
a long opened at mid 5000.00 enters at 5000.125 and a close at mid
5001.00 realizes exactly 37.50. -/
theorem slippage_pnl_c7 :
    (∀ (P : OfiParams) (s : InstState),
      ¬ (P.fill_at_touch_when_spread1 = true ∧
         spread_is_one_tick s.last_bid_px s.last_ask_px P.tick_size = true ∧
         P.min_bid_sz ≤ s.last_bid_sz ∧ P.min_ask_sz ≤ s.last_ask_sz) →
      fill_slip P s = (1/2) * (P.slip_ticks : ℚ) * P.tick_size) ∧
    (∀ (P : OfiParams) (ts : ℤ) (mid_px : ℚ) (v : ℤ) s g,
      ¬ (P.fill_at_touch_when_spread1 = true ∧
         spread_is_one_tick s.last_bid_px s.last_ask_px P.tick_size = true ∧
         P.min_bid_sz ≤ s.last_bid_sz ∧ P.min_ask_sz ≤ s.last_ask_sz) →
      s.position.side = 0 → v ≠ 0 →
      (act_and_fill P ts mid_px (some v) s g).2.1.position.entry_px =
        mid_px + (v : ℚ) * ((1/2) * (P.slip_ticks : ℚ) * P.tick_size)) ∧
    (∀ (P : OfiParams) (mid_px : ℚ) (s : InstState),
      ¬ (P.fill_at_touch_when_spread1 = true ∧
         spread_is_one_tick s.last_bid_px s.last_ask_px P.tick_size = true ∧
         P.min_bid_sz ≤ s.last_bid_sz ∧ P.min_ask_sz ≤ s.last_ask_sz) →
      close_pnl P mid_px s =
        ((mid_px - (s.position.side : ℚ) *
            ((1/2) * (P.slip_ticks : ℚ) * P.tick_size)) -
          s.position.entry_px) / P.tick_size * (s.position.side : ℚ) *
            P.tick_value) ∧
    ((act_and_fill P_c7 0 5000 (some 1) {} {}).2.1.position.entry_px =
        5000 + 1/8 ∧
     (act_and_fill P_c7 1 5001 (some 0)
        (act_and_fill P_c7 0 5000 (some 1) {} {}).2.1
        (act_and_fill P_c7 0 5000 (some 1) {} {}).2.2).1 = 75/2) := by
  have hslip : ∀ (P : OfiParams) (s : InstState),
      ¬ (P.fill_at_touch_when_spread1 = true ∧
         spread_is_one_tick s.last_bid_px s.last_ask_px P.tick_size = true ∧
         P.min_bid_sz ≤ s.last_bid_sz ∧ P.min_ask_sz ≤ s.last_ask_sz) →
      fill_slip P s = (1/2) * (P.slip_ticks : ℚ) * P.tick_size := by
    intro P s h
    unfold fill_slip
    rw [if_neg h]
  refine ⟨hslip, ?_, ?_, ?_⟩
  · intro P ts mid_px v s g h hz hv
    have hno1 : ¬ (s.position.side ≠ 0 ∧
        P.max_hold_ns < ts - s.position.entry_ts) := fun hh => hh.1 hz
    have hno2 : ¬ (s.position.side ≠ 0 ∧ v ≠ 0 ∧ v ≠ s.position.side ∧
        ts - g.last_flip_ts < P.min_flip_cooldown_ns) := fun hh => hh.1 hz
    have hne : ¬ v = s.position.side := fun hh => hv (hh.trans hz)
    simp only [act_and_fill, if_neg hno1, if_neg hno2, if_neg hne,
      if_pos hv, if_neg (fun hh : s.position.side ≠ 0 => hh hz)]
    simp [hslip P s h]
  · intro P mid_px s h
    simp only [close_pnl, hslip P s h]
  · constructor
    · norm_num [P_c7, act_and_fill, fill_slip, spread_is_one_tick]
    · norm_num [P_c7, act_and_fill, close_pnl, fill_slip,
        spread_is_one_tick]

/-- Witness for C7 at concrete inputs: touch-fill disabled (so the
override cannot apply), fresh instance state, default tick and slip. -/
theorem slippage_pnl_c7_witness :
    fill_slip P_c7 {} = (1/2) * ((P_c7.slip_ticks : ℤ) : ℚ) *
      P_c7.tick_size :=
  slippage_pnl_c7.1 P_c7 {} (fun h => by simpa [P_c7] using h.1)

/-- C9: with a positive trade_confirm_ns, an otherwise-actionable raw
direction is suppressed to no-signal unless a trade has been seen and the
most recent trade direction equals the raw direction; an unknown-aggressor
trade sets the stored direction to 0 and so never satisfies the gate; and
the gate compares direction only: neither the value of the positive
trade_confirm_ns window nor the stored trade timestamp value (beyond being
nonzero) influences desired_position. -/
theorem trade_gate_c9 :
    (∀ (P : OfiParams) (s : InstState), 0 < P.trade_confirm_ns →
      (s.last_trade_dir ≠ raw_dir P s ∨ s.last_trade_ts = 0) →
      desired_position P s = 0) ∧
    (∀ (P : OfiParams) (s : InstState), 0 < P.trade_confirm_ns →
      desired_position P s ≠ 0 →
      s.last_trade_dir = raw_dir P s ∧ s.last_trade_ts ≠ 0) ∧
    (∀ (t : Trade) (s : InstState), t.side = Aggressor.Unknown →
      (on_trade t s).last_trade_dir = 0) ∧
    (∀ (P : OfiParams) (t : Trade) (s : InstState), 0 < P.trade_confirm_ns →
      t.side = Aggressor.Unknown →
      desired_position P (on_trade t s) = 0) ∧
    (∀ (P : OfiParams) (s : InstState) (a b : ℤ), 0 < a → 0 < b →
      desired_position { P with trade_confirm_ns := a } s =
        desired_position { P with trade_confirm_ns := b } s) ∧
    (∀ (P : OfiParams) (s : InstState) (a b : ℤ), a ≠ 0 → b ≠ 0 →
      desired_position P { s with last_trade_ts := a } =
        desired_position P { s with last_trade_ts := b }) := by
  have key : ∀ (P : OfiParams) (s : InstState), 0 < P.trade_confirm_ns →
      (s.last_trade_dir ≠ raw_dir P s ∨ s.last_trade_ts = 0) →
      desired_position P s = 0 := by
    intro P s htc hgate
    unfold desired_position
    by_cases hr : raw_dir P s = 0
    · simp [hr]
    · rw [if_neg hr, if_pos htc]
      rcases hgate with h | h
      · rw [if_pos h]
      · by_cases hdir : s.last_trade_dir ≠ raw_dir P s
        · rw [if_pos hdir]
        · rw [if_neg hdir, if_pos h]
  refine ⟨key, ?_, ?_, ?_, ?_, ?_⟩
  · intro P s htc hne
    constructor
    · by_cases hdir : s.last_trade_dir = raw_dir P s
      · exact hdir
      · exact absurd (key P s htc (Or.inl hdir)) hne
    · intro hts
      exact hne (key P s htc (Or.inr hts))
  · intro t s ht
    simp [on_trade, ht]
  · intro P t s htc ht
    by_cases hr : raw_dir P (on_trade t s) = 0
    · unfold desired_position
      simp [hr]
    · refine key P (on_trade t s) htc (Or.inl ?_)
      rw [show (on_trade t s).last_trade_dir = 0 by simp [on_trade, ht]]
      exact fun h => hr h.symm
  · intro P s a b ha hb
    have hraw : raw_dir { P with trade_confirm_ns := a } s =
        raw_dir { P with trade_confirm_ns := b } s := rfl
    simp only [desired_position]
    rw [hraw]
    by_cases hr : raw_dir { P with trade_confirm_ns := b } s = 0
    · simp [hr]
    · simp [hr, ha, hb]
  · intro P s a b ha hb
    have hraw : raw_dir P { s with last_trade_ts := a } =
        raw_dir P { s with last_trade_ts := b } := rfl
    simp only [desired_position]
    rw [hraw]
    by_cases hr : raw_dir P { s with last_trade_ts := b } = 0
    · simp [hr]
    · simp [hr, ha, hb]

/-- Witness for C9 at concrete inputs: the default-constructed trade has
an unknown aggressor, and recording it leaves direction 0. -/
theorem trade_gate_c9_witness :
    (on_trade {} ({} : InstState)).last_trade_dir = 0 :=
  trade_gate_c9.2.2.1 {} {} rfl

/-- C10: two configurations that agree on every field other than
min_spread_ticks and rth_only produce identical on_quote and act_and_fill
behaviour on every input (on_trade and the accessors take no
configuration at all): the two fields never influence the engine. -/
theorem config_independence_c10 (P₁ P₂ : OfiParams)
    (h1 : P₁.theta_ofi = P₂.theta_ofi) (h2 : P₁.theta_imb = P₂.theta_imb)
    (h3 : P₁.tick_size = P₂.tick_size) (h4 : P₁.tick_value = P₂.tick_value)
    (h5 : P₁.slip_ticks = P₂.slip_ticks)
    (h6 : P₁.max_hold_ns = P₂.max_hold_ns)
    (h7 : P₁.min_bid_sz = P₂.min_bid_sz)
    (h8 : P₁.min_ask_sz = P₂.min_ask_sz)
    (h9 : P₁.persist_updates = P₂.persist_updates)
    (h10 : P₁.min_flip_cooldown_ns = P₂.min_flip_cooldown_ns)
    (h11 : P₁.fill_at_touch_when_spread1 = P₂.fill_at_touch_when_spread1)
    (h12 : P₁.trade_confirm_ns = P₂.trade_confirm_ns) :
    (∀ q s g, on_quote P₁ q s g = on_quote P₂ q s g) ∧
    (∀ ts mid_px sig s g, act_and_fill P₁ ts mid_px sig s g =
      act_and_fill P₂ ts mid_px sig s g) := by
  cases P₁
  cases P₂
  dsimp only at h1 h2 h3 h4 h5 h6 h7 h8 h9 h10 h11 h12
  subst h1 h2 h3 h4 h5 h6 h7 h8 h9 h10 h11 h12
  exact ⟨fun _ _ _ => rfl, fun _ _ _ _ _ => rfl⟩

/-- Two configurations for the C10 witness differing only in
min_spread_ticks and rth_only. -/
def P_c10a : OfiParams := { min_spread_ticks := 7, rth_only := false }

/-- Second configuration of the C10 witness (header defaults). -/
def P_c10b : OfiParams := {}

/-- Witness for C10 at concrete inputs: the two configurations differ in
min_spread_ticks (7 versus 1) and rth_only (false versus true) and give
the same on_quote result on a concrete quote from the fresh state. -/
theorem config_independence_c10_witness :
    on_quote P_c10a {} {} {} = on_quote P_c10b {} {} {} :=
  (config_independence_c10 P_c10a P_c10b rfl rfl rfl rfl rfl rfl rfl rfl
    rfl rfl rfl rfl).1 {} {} {}

/-- Instantaneous OFI as the claim words it (the refinement target,
written from the specification text): e_b is the new bid size if the bid
price rose, minus the previous bid size if it fell, and new minus previous
bid size if unchanged; e_a is the new ask size if the ask price fell,
minus the previous ask size if it rose, and previous minus new ask size if
unchanged; the instantaneous OFI is e_b - e_a. -/
def ofi_inst_spec (new_bid_px new_ask_px : ℚ) (new_bid_sz new_ask_sz : ℤ)
    (prev_bid_px prev_ask_px : ℚ) (prev_bid_sz prev_ask_sz : ℤ) : ℚ :=
  let e_b : ℚ :=
    if prev_bid_px < new_bid_px then (new_bid_sz : ℚ)
    else if new_bid_px < prev_bid_px then -(prev_bid_sz : ℚ)
    else (new_bid_sz : ℚ) - (prev_bid_sz : ℚ)
  let e_a : ℚ :=
    if new_ask_px < prev_ask_px then (new_ask_sz : ℚ)
    else if prev_ask_px < new_ask_px then -(prev_ask_sz : ℚ)
    else (prev_ask_sz : ℚ) - (new_ask_sz : ℚ)
  e_b - e_a

/-- Advancing the debounce counters never changes the EWMA accumulator. -/
lemma debounce_next_ewm (r : ℤ) (g : StaticState) :
    (debounce_next r g).ofi_ewm = g.ofi_ewm := by
  unfold debounce_next
  split
  · rfl
  · split <;> rfl

/-- In a single-instance run from a fresh process, the exposed ofi_l1 and
the static accumulator stay equal, and as long as no quote has been seen
the accumulator is still 0. -/
lemma runQuotes_ofi_inv (P : OfiParams) (qs : List QuoteL1) :
    ∀ st : InstState × StaticState,
      st.1.ofi_l1 = st.2.ofi_ewm →
      (st.1.have_prev = false → st.2.ofi_ewm = 0) →
      ((qs.foldl (stepQuote P) st).1.ofi_l1 =
        (qs.foldl (stepQuote P) st).2.ofi_ewm ∧
       ((qs.foldl (stepQuote P) st).1.have_prev = false →
         (qs.foldl (stepQuote P) st).2.ofi_ewm = 0)) := by
  induction qs with
  | nil => exact fun st h1 h2 => ⟨h1, h2⟩
  | cons q qs ih =>
    intro st h1 h2
    rw [List.foldl_cons]
    refine ih (stepQuote P st q) ?_ ?_
    · have hl1 : (stepQuote P st q).1.ofi_l1 =
          (update_ofi_l1 q st.1 st.2).1.ofi_l1 := rfl
      have hewm : (stepQuote P st q).2.ofi_ewm =
          (update_ofi_l1 q st.1 st.2).2.ofi_ewm := debounce_next_ewm _ _
      rw [hl1, hewm]
      unfold update_ofi_l1
      by_cases hp : st.1.have_prev = false
      · rw [if_pos hp]
        simpa using (h2 hp).symm
      · rw [if_neg hp]
    · intro hfp
      have : (stepQuote P st q).1.have_prev = true := rfl
      rw [this] at hfp
      exact absurd hfp (by simp)

/-- C2: whenever a previous quote is stored and the exposed smoothed OFI
agrees with the static accumulator (which holds throughout any
single-instance run from a fresh process), processing a quote sets the
exposed OFI to 0.8 times the previous smoothed value plus 0.2 times the
instantaneous OFI of the claim (the e_b - e_a formula against the stored
previous quote); on a first quote with no previous reference the exposed
smoothed OFI is 0; and the agreement invariant indeed holds after any
quote sequence from the fresh state. -/
theorem ofi_recurrence_c2 (P : OfiParams) :
    (∀ q s g, s.have_prev = true → s.ofi_l1 = g.ofi_ewm →
      (on_quote P q s g).2.1.ofi_l1 =
        (1 - 1/5) * s.ofi_l1 + (1/5) *
          ofi_inst_spec q.bid_px q.ask_px q.bid_sz q.ask_sz
            s.last_bid_px s.last_ask_px s.last_bid_sz s.last_ask_sz) ∧
    (∀ q s g, s.have_prev = false →
      (on_quote P q s g).2.1.ofi_l1 = 0) ∧
    (∀ qs, (runQuotes P qs).1.ofi_l1 = (runQuotes P qs).2.ofi_ewm) := by
  refine ⟨?_, ?_, ?_⟩
  · intro q s g hp he
    have hspec : ofi_inst_spec q.bid_px q.ask_px q.bid_sz q.ask_sz
        s.last_bid_px s.last_ask_px s.last_bid_sz s.last_ask_sz =
        ofi_inst q s := rfl
    have hl1 : (on_quote P q s g).2.1.ofi_l1 =
        (update_ofi_l1 q s g).1.ofi_l1 := rfl
    rw [hspec, hl1]
    unfold update_ofi_l1
    rw [if_neg (by simp [hp])]
    simp [he]
  · intro q s g hp
    have hl1 : (on_quote P q s g).2.1.ofi_l1 =
        (update_ofi_l1 q s g).1.ofi_l1 := rfl
    rw [hl1]
    unfold update_ofi_l1
    rw [if_pos hp]
  · intro qs
    exact (runQuotes_ofi_inv P qs ({}, {}) rfl (fun _ => rfl)).1

/-- Witness for C2 at concrete inputs: a fresh instance (no previous
quote) exposes a smoothed OFI of 0 after its first quote. -/
theorem ofi_recurrence_c2_witness :
    (on_quote {} {} {} {}).2.1.ofi_l1 = 0 :=
  (ofi_recurrence_c2 {}).2.1 {} {} {} rfl

/-- Default-constructed parameters (the header defaults), used by the
C1 counterexample run. -/
def Pdflt : OfiParams := {}

/-- First quote of the C1 run: spread one tick, balanced sizes. -/
def q_c1a : QuoteL1 :=
  { ts := 1, bid_px := 100, ask_px := 100 + 1/4, bid_sz := 5, ask_sz := 5 }

/-- Second quote of the C1 run: same prices, bid size grows to 10, so the
instantaneous OFI is 5. -/
def q_c1b : QuoteL1 :=
  { ts := 2, bid_px := 100, ask_px := 100 + 1/4, bid_sz := 10, ask_sz := 5 }

/-- Instance B of a two-instance process: instance A (also fresh) has
already processed the two quotes, leaving the shared static accumulator
at 1; B then processes the same two quotes through the statics A left
behind. -/
def twoInstanceB : InstState :=
  (stepQuote Pdflt
    (stepQuote Pdflt ({}, (runQuotes Pdflt [q_c1a, q_c1b]).2) q_c1a)
    q_c1b).1

/-- C1 is violated by the code: the smoothed OFI, the raw-direction and
repeat counters and the flip timestamp are function-local statics shared
by every instance.  Concretely, a fresh instance B that processes the two
quotes after a fresh instance A has processed them in the same process
exposes ofi() = 9/5, while the same instance alone in the process would
expose 1: B does not return the results it would return if it were the
only instance running. -/
theorem static_sharing_c1 :
    twoInstanceB.ofi_l1 ≠ (runQuotes Pdflt [q_c1a, q_c1b]).1.ofi_l1 ∧
    twoInstanceB.ofi_l1 = 9/5 ∧
    (runQuotes Pdflt [q_c1a, q_c1b]).1.ofi_l1 = 1 := by
  refine ⟨?_, ?_, ?_⟩ <;>
    norm_num [twoInstanceB, runQuotes, stepQuote, on_quote, quote_upd,
      update_ofi_l1, ofi_inst, debounce_next, desired_position, raw_dir,
      spread_is_one_tick, micro, mid, imbalance_ticks, Pdflt, q_c1a, q_c1b]

/-- The OFI update never changes the two debounce counters. -/
lemma update_ofi_l1_debounce (q : QuoteL1) (s : InstState)
    (g : StaticState) :
    (update_ofi_l1 q s g).2.last_raw_sig = g.last_raw_sig ∧
    (update_ofi_l1 q s g).2.same_dir_count = g.same_dir_count := by
  unfold update_ofi_l1
  split <;> simp

/-- The statics left by one quote step are the debounce update of the
statics left by the OFI update. -/
lemma stepQuote_statics (P : OfiParams) (q : QuoteL1)
    (st : InstState × StaticState) :
    (stepQuote P st q).2 =
      debounce_next (quote_raw P q st.1 st.2)
        (update_ofi_l1 q st.1 st.2).2 := rfl

/-- The signal emitted by on_quote: the raw direction seen this call, when
nonzero and repeated for at least persist_updates consecutive updates. -/
lemma on_quote_sig (P : OfiParams) (q : QuoteL1) (s : InstState)
    (g : StaticState) :
    (on_quote P q s g).1 =
      if quote_raw P q s g ≠ 0 ∧
         P.persist_updates ≤ (on_quote P q s g).2.2.same_dir_count
      then some (quote_raw P q s g) else none := rfl

/-- Unfolding one step of a single-instance quote run at index k. -/
lemma runQuotes_take_succ (P : OfiParams) (qs : List QuoteL1) (k : ℕ)
    (hk : k < qs.length) :
    runQuotes P (qs.take (k+1)) =
      stepQuote P (runQuotes P (qs.take k)) (qs.get ⟨k, hk⟩) := by
  unfold runQuotes
  rw [List.take_succ, List.getElem?_eq_getElem hk, Option.toList_some,
    List.foldl_append]
  rfl

/-- Effect of one quote step on the debounce counters when the raw
direction seen is a fixed nonzero d: a repeat increments the counter, a
change stores d with counter 1. -/
lemma debounce_step (P : OfiParams) (q : QuoteL1)
    (st : InstState × StaticState) (d : ℤ) (hd : d ≠ 0)
    (hr : quote_raw P q st.1 st.2 = d) :
    (st.2.last_raw_sig = d →
      (stepQuote P st q).2.last_raw_sig = d ∧
      (stepQuote P st q).2.same_dir_count = st.2.same_dir_count + 1) ∧
    (st.2.last_raw_sig ≠ d →
      (stepQuote P st q).2.last_raw_sig = d ∧
      (stepQuote P st q).2.same_dir_count = 1) := by
  have hupd := update_ofi_l1_debounce q st.1 st.2
  rw [stepQuote_statics P q st, hr]
  constructor
  · intro heq
    unfold debounce_next
    rw [if_neg hd, if_pos (by rw [hupd.1, heq])]
    exact ⟨by simp [hupd.1, heq], by simp [hupd.2]⟩
  · intro hne
    unfold debounce_next
    rw [if_neg hd, if_neg (by rw [hupd.1]; exact fun h => hne h.symm)]
    exact ⟨by simp, by simp⟩

/-- In a fresh single-instance run whose first k+1 quotes all produce the
same nonzero raw direction d, after k+1 quotes the stored direction is d
and the consecutive-repeat counter is k+1. -/
lemma debounce_count_run (P : OfiParams) (d : ℤ) (qs : List QuoteL1)
    (hd : d ≠ 0) :
    ∀ k (hk : k < qs.length),
      (∀ i (hi : i < qs.length), i ≤ k →
        quote_raw P (qs.get ⟨i, hi⟩) (runQuotes P (qs.take i)).1
          (runQuotes P (qs.take i)).2 = d) →
      (runQuotes P (qs.take (k+1))).2.last_raw_sig = d ∧
      (runQuotes P (qs.take (k+1))).2.same_dir_count = (k : ℤ) + 1 := by
  intro k
  induction k with
  | zero =>
    intro hk hraw
    rw [runQuotes_take_succ P qs 0 hk]
    have hr := hraw 0 hk (le_refl 0)
    have hstep := (debounce_step P (qs.get ⟨0, hk⟩)
      (runQuotes P (qs.take 0)) d hd hr).2
      (by rw [show (runQuotes P (qs.take 0)).2.last_raw_sig = 0 from rfl]
          exact fun h => hd h.symm)
    exact ⟨hstep.1, by rw [hstep.2]; simp⟩
  | succ n ih =>
    intro hk hraw
    have hk' : n < qs.length := Nat.lt_of_succ_lt hk
    have ihres := ih hk' (fun i hi hle => hraw i hi (Nat.le_succ_of_le hle))
    rw [runQuotes_take_succ P qs (n+1) hk]
    have hr := hraw (n+1) hk (le_refl _)
    have hstep := (debounce_step P (qs.get ⟨n+1, hk⟩)
      (runQuotes P (qs.take (n+1))) d hd hr).1 ihres.1
    refine ⟨hstep.1, ?_⟩
    rw [hstep.2, ihres.2]
    push_cast
    ring

/-- C3: in a fresh single-instance run whose processed quotes all show the
same nonzero raw direction d, the k-th quote (0-based) yields no signal
while k+1 is below persist_updates and yields d when k+1 equals
persist_updates; moreover a raw reading of 0 clears the stored direction
and counter, and a changed nonzero raw reading stores it with counter 1. -/
theorem debounce_c3 (P : OfiParams) :
    (∀ (d : ℤ) (qs : List QuoteL1) (k : ℕ) (hk : k < qs.length), d ≠ 0 →
      (∀ i (hi : i < qs.length), i ≤ k →
        quote_raw P (qs.get ⟨i, hi⟩) (runQuotes P (qs.take i)).1
          (runQuotes P (qs.take i)).2 = d) →
      (((k : ℤ) + 1 < P.persist_updates →
        (on_quote P (qs.get ⟨k, hk⟩) (runQuotes P (qs.take k)).1
          (runQuotes P (qs.take k)).2).1 = none) ∧
       ((k : ℤ) + 1 = P.persist_updates →
        (on_quote P (qs.get ⟨k, hk⟩) (runQuotes P (qs.take k)).1
          (runQuotes P (qs.take k)).2).1 = some d))) ∧
    (∀ q s g, quote_raw P q s g = 0 →
      (on_quote P q s g).2.2.last_raw_sig = 0 ∧
      (on_quote P q s g).2.2.same_dir_count = 0) ∧
    (∀ q s g, quote_raw P q s g ≠ 0 →
      quote_raw P q s g ≠ g.last_raw_sig →
      (on_quote P q s g).2.2.last_raw_sig = quote_raw P q s g ∧
      (on_quote P q s g).2.2.same_dir_count = 1) := by
  refine ⟨?_, ?_, ?_⟩
  · intro d qs k hk hd hraw
    have hcount := debounce_count_run P d qs hd k hk hraw
    rw [runQuotes_take_succ P qs k hk] at hcount
    have hr := hraw k hk (le_refl k)
    have hc2 : (on_quote P (qs.get ⟨k, hk⟩) (runQuotes P (qs.take k)).1
        (runQuotes P (qs.take k)).2).2.2.same_dir_count = (k : ℤ) + 1 :=
      hcount.2
    constructor
    · intro hlt
      rw [on_quote_sig, hr, hc2]
      rw [if_neg (fun h => absurd h.2 (not_le.mpr hlt))]
    · intro heq
      rw [on_quote_sig, hr, hc2]
      rw [if_pos ⟨hd, le_of_eq heq.symm⟩]
  · intro q s g h0
    have hupd := update_ofi_l1_debounce q s g
    have hstat : (on_quote P q s g).2.2 =
        debounce_next (quote_raw P q s g) (update_ofi_l1 q s g).2 := rfl
    rw [hstat, h0]
    unfold debounce_next
    rw [if_pos rfl]
    exact ⟨by simp, by simp⟩
  · intro q s g hne hdiff
    have hupd := update_ofi_l1_debounce q s g
    have hstat : (on_quote P q s g).2.2 =
        debounce_next (quote_raw P q s g) (update_ofi_l1 q s g).2 := rfl
    rw [hstat]
    unfold debounce_next
    rw [if_neg hne, if_neg (by rw [hupd.1]; exact hdiff)]
    exact ⟨by simp, by simp⟩

/-- Parameters for the C3 witness: negative thresholds so that a fresh
instance shows a long raw direction immediately, trade confirmation off,
persistence two updates. -/
def P_c3 : OfiParams :=
  { theta_ofi := -1, theta_imb := -1, trade_confirm_ns := 0 }

/-- Quote for the C3 witness: one-tick spread, bid-heavy book. -/
def q_c3 : QuoteL1 :=
  { ts := 1, bid_px := 100, ask_px := 100 + 1/4, bid_sz := 5, ask_sz := 2 }

/-- Witness for C3 at concrete inputs: with persist_updates = 2 and both
quotes showing raw direction 1, the second quote of the run emits the
actionable signal 1. -/
theorem debounce_c3_witness :
    (on_quote P_c3 ([q_c3, q_c3].get ⟨1, by norm_num⟩)
      (runQuotes P_c3 ([q_c3, q_c3].take 1)).1
      (runQuotes P_c3 ([q_c3, q_c3].take 1)).2).1 = some 1 := by
  have hraw : ∀ i (hi : i < ([q_c3, q_c3] : List QuoteL1).length), i ≤ 1 →
      quote_raw P_c3 ([q_c3, q_c3].get ⟨i, hi⟩)
        (runQuotes P_c3 ([q_c3, q_c3].take i)).1
        (runQuotes P_c3 ([q_c3, q_c3].take i)).2 = 1 := by
    intro i hi _
    interval_cases i <;>
      norm_num [quote_raw, desired_position, raw_dir, quote_upd,
        update_ofi_l1, ofi_inst, runQuotes, stepQuote, on_quote,
        debounce_next, spread_is_one_tick, micro, mid, imbalance_ticks,
        P_c3, q_c3]
  exact ((debounce_c3 P_c3).1 1 [q_c3, q_c3] 1 (by norm_num)
    (by norm_num) hraw).2 (by norm_num [P_c3])

/-- One call on the public interface of a strategy instance. -/
inductive Call where
  | quote (q : QuoteL1)
  | trade (t : Trade)
  | act (ts : ℤ) (mid_px : ℚ) (sig : Option ℤ)
deriving Repr

/-- One interface call viewed as a state transformer. -/
def stepCall (P : OfiParams) (st : InstState × StaticState) (c : Call) :
    InstState × StaticState :=
  match c with
  | .quote q => (on_quote P q st.1 st.2).2
  | .trade t => (on_trade t st.1, st.2)
  | .act ts mid_px sig => (act_and_fill P ts mid_px sig st.1 st.2).2

/-- A single freshly constructed instance in a fresh process, fed a list
of interface calls. -/
def runCalls (P : OfiParams) (cs : List Call) : InstState × StaticState :=
  cs.foldl (stepCall P) ({}, {})

/-- The signal argument of an act_and_fill call is a direction: absent, or
one of -1, 0, +1 (the only values the engine itself ever emits and the
driver ever passes). -/
def sigOk : Call → Prop
  | .act _ _ (some v) => v = -1 ∨ v = 0 ∨ v = 1
  | _ => True

/-- Processing a quote never touches the position. -/
lemma on_quote_position (P : OfiParams) (q : QuoteL1) (s : InstState)
    (g : StaticState) : (on_quote P q s g).2.1.position = s.position := by
  show (update_ofi_l1 q s g).1.position = s.position
  unfold update_ofi_l1
  split <;> rfl

/-- The position side after act_and_fill is the old side, flat, or the
value carried by the signal. -/
lemma act_and_fill_side_cases (P : OfiParams) (ts : ℤ) (mid_px : ℚ)
    (sig : Option ℤ) (s : InstState) (g : StaticState) :
    (act_and_fill P ts mid_px sig s g).2.1.position.side = s.position.side ∨
    (act_and_fill P ts mid_px sig s g).2.1.position.side = 0 ∨
    sig = some ((act_and_fill P ts mid_px sig s g).2.1.position.side) := by
  unfold act_and_fill
  by_cases h1 : s.position.side ≠ 0 ∧ P.max_hold_ns < ts - s.position.entry_ts
  · rw [if_pos h1]
    exact Or.inr (Or.inl rfl)
  · rw [if_neg h1]
    cases sig with
    | none => exact Or.inl rfl
    | some v =>
      dsimp only
      by_cases h2 : s.position.side ≠ 0 ∧ v ≠ 0 ∧ v ≠ s.position.side ∧
          ts - g.last_flip_ts < P.min_flip_cooldown_ns
      · rw [if_pos h2]
        exact Or.inl rfl
      · rw [if_neg h2]
        by_cases h3 : v = s.position.side
        · rw [if_pos h3]
          exact Or.inl rfl
        · rw [if_neg h3]
          by_cases h4 : v ≠ 0
          · refine Or.inr (Or.inr ?_)
            simp only [if_pos h4]
          · by_cases h5 : s.position.side ≠ 0
            · refine Or.inr (Or.inl ?_)
              simp only [if_neg h4, if_pos h5]
            · refine Or.inr (Or.inl ?_)
              simp only [if_neg h4, if_neg h5]
              exact not_not.mp h5

/-- One interface call with a direction-valued signal keeps the position
side in the three-valued set. -/
lemma stepCall_side (P : OfiParams) (st : InstState × StaticState)
    (c : Call)
    (hst : st.1.position.side = -1 ∨ st.1.position.side = 0 ∨
      st.1.position.side = 1)
    (hc : sigOk c) :
    (stepCall P st c).1.position.side = -1 ∨
    (stepCall P st c).1.position.side = 0 ∨
    (stepCall P st c).1.position.side = 1 := by
  cases c with
  | quote q =>
    have h : (stepCall P st (Call.quote q)).1.position = st.1.position :=
      on_quote_position P q st.1 st.2
    rw [h]
    exact hst
  | trade t => exact hst
  | act ts mid_px sig =>
    rcases act_and_fill_side_cases P ts mid_px sig st.1 st.2 with h | h | h
    · rw [show (stepCall P st (Call.act ts mid_px sig)).1.position.side =
          (act_and_fill P ts mid_px sig st.1 st.2).2.1.position.side from
          rfl, h]
      exact hst
    · exact Or.inr (Or.inl h)
    · cases sig with
      | none => exact absurd h (by simp)
      | some v =>
        injection h with h'
        have hstep : (stepCall P st (Call.act ts mid_px (some v))).1.position.side =
            (act_and_fill P ts mid_px (some v) st.1 st.2).2.1.position.side :=
          rfl
        rw [hstep, ← h']
        exact hc

/-- Folding direction-valued calls from a side in the three-valued set
keeps the side in the three-valued set. -/
lemma runCalls_side (P : OfiParams) (cs : List Call) :
    ∀ st : InstState × StaticState,
      (st.1.position.side = -1 ∨ st.1.position.side = 0 ∨
        st.1.position.side = 1) →
      (∀ c ∈ cs, sigOk c) →
      ((cs.foldl (stepCall P) st).1.position.side = -1 ∨
       (cs.foldl (stepCall P) st).1.position.side = 0 ∨
       (cs.foldl (stepCall P) st).1.position.side = 1) := by
  induction cs with
  | nil => exact fun st h _ => h
  | cons c cs ih =>
    intro st h hall
    rw [List.foldl_cons]
    exact ih _ (stepCall_side P st c h (hall c (List.mem_cons_self c cs)))
      (fun x hx => hall x (List.mem_cons_of_mem c hx))

/-- The raw threshold reading is always -1, 0 or +1. -/
lemma raw_dir_mem (P : OfiParams) (s : InstState) :
    raw_dir P s = -1 ∨ raw_dir P s = 0 ∨ raw_dir P s = 1 := by
  unfold raw_dir
  split
  · exact Or.inr (Or.inl rfl)
  split
  · exact Or.inr (Or.inl rfl)
  dsimp only
  split
  · exact Or.inl rfl
  split
  · exact Or.inr (Or.inr rfl)
  · exact Or.inr (Or.inl rfl)

/-- The gated desired position is 0 or the raw reading. -/
lemma desired_position_raw (P : OfiParams) (s : InstState) :
    desired_position P s = 0 ∨ desired_position P s = raw_dir P s := by
  unfold desired_position
  dsimp only
  split
  · exact Or.inl rfl
  split
  · split
    · exact Or.inl rfl
    split
    · exact Or.inl rfl
    · exact Or.inr rfl
  · exact Or.inr rfl

/-- If act_and_fill leaves a freshly different open position, the old one
was closed (its PnL is the returned value) and the new one was opened at
the call timestamp. -/
lemma act_new_open (P : OfiParams) (ts : ℤ) (mid_px : ℚ) (sig : Option ℤ)
    (s : InstState) (g : StaticState)
    (h1 : (act_and_fill P ts mid_px sig s g).2.1.position.side ≠ 0)
    (h2 : (act_and_fill P ts mid_px sig s g).2.1.position.side ≠
      s.position.side) :
    (act_and_fill P ts mid_px sig s g).2.1.position.entry_ts = ts ∧
    (act_and_fill P ts mid_px sig s g).1 =
      (if s.position.side ≠ 0 then close_pnl P mid_px s else 0) := by
  unfold act_and_fill at h1 h2 ⊢
  by_cases hfx : s.position.side ≠ 0 ∧
      P.max_hold_ns < ts - s.position.entry_ts
  · rw [if_pos hfx] at h1
    exact absurd rfl h1
  · rw [if_neg hfx] at h1 h2 ⊢
    cases sig with
    | none => exact absurd rfl h2
    | some v =>
      dsimp only at h1 h2 ⊢
      by_cases hcd : s.position.side ≠ 0 ∧ v ≠ 0 ∧ v ≠ s.position.side ∧
          ts - g.last_flip_ts < P.min_flip_cooldown_ns
      · rw [if_pos hcd] at h1 h2 ⊢
        exact absurd rfl h2
      · rw [if_neg hcd] at h1 h2 ⊢
        by_cases hveq : v = s.position.side
        · rw [if_pos hveq] at h1 h2 ⊢
          exact absurd rfl h2
        · rw [if_neg hveq] at h1 h2 ⊢
          by_cases hv0 : v ≠ 0
          · constructor
            · simp only [if_pos hv0]
            · rfl
          · by_cases hz : s.position.side ≠ 0
            · exfalso
              apply h1
              simp only [if_neg hv0, if_pos hz]
            · exfalso
              apply h2
              simp only [if_neg hv0, if_neg hz]

/-- C8: over any sequence of interface calls from a fresh instance whose
act_and_fill signals are directions, the position side stays in
{-1, 0, +1}; on_quote itself only ever emits the directions -1 and +1;
and whenever act_and_fill ends up holding a position different from the
one it started with, the new position was opened at the call timestamp
and the returned value is the realized PnL of the old position (0 when it
started flat): the engine closes any open position before opening. -/
theorem position_invariant_c8 (P : OfiParams) :
    (∀ cs : List Call, (∀ c ∈ cs, sigOk c) →
      ((runCalls P cs).1.position.side = -1 ∨
       (runCalls P cs).1.position.side = 0 ∨
       (runCalls P cs).1.position.side = 1)) ∧
    (∀ q s g v, (on_quote P q s g).1 = some v → (v = -1 ∨ v = 1)) ∧
    (∀ ts mid_px sig s g,
      (act_and_fill P ts mid_px sig s g).2.1.position.side ≠ 0 →
      (act_and_fill P ts mid_px sig s g).2.1.position.side ≠
        s.position.side →
      (act_and_fill P ts mid_px sig s g).2.1.position.entry_ts = ts ∧
      (act_and_fill P ts mid_px sig s g).1 =
        (if s.position.side ≠ 0 then close_pnl P mid_px s else 0)) := by
  refine ⟨?_, ?_, ?_⟩
  · intro cs hall
    exact runCalls_side P cs ({}, {}) (Or.inr (Or.inl rfl)) hall
  · intro q s g v hv
    rw [on_quote_sig] at hv
    by_cases hcond : quote_raw P q s g ≠ 0 ∧
        P.persist_updates ≤ (on_quote P q s g).2.2.same_dir_count
    · rw [if_pos hcond] at hv
      injection hv with hv'
      subst hv'
      have hmem : quote_raw P q s g = 0 ∨
          quote_raw P q s g = raw_dir P (quote_upd q (update_ofi_l1 q s g).1) :=
        desired_position_raw P (quote_upd q (update_ofi_l1 q s g).1)
      rcases hmem with h | h
      · exact absurd h hcond.1
      · rcases raw_dir_mem P (quote_upd q (update_ofi_l1 q s g).1) with
          hr | hr | hr
        · exact Or.inl (h.trans hr)
        · exact absurd (h.trans hr) hcond.1
        · exact Or.inr (h.trans hr)
    · rw [if_neg hcond] at hv
      exact absurd hv (by simp)
  · exact act_new_open P

/-- Witness for C8 at concrete inputs: the singleton call list opening a
long with direction signal +1. -/
theorem position_invariant_c8_witness :
    (runCalls {} [Call.act 0 5000 (some 1)]).1.position.side = -1 ∨
    (runCalls {} [Call.act 0 5000 (some 1)]).1.position.side = 0 ∨
    (runCalls {} [Call.act 0 5000 (some 1)]).1.position.side = 1 :=
  (position_invariant_c8 {}).1 [Call.act 0 5000 (some 1)]
    (fun c hc => by
      rw [List.mem_singleton] at hc
      subst hc
      exact Or.inr (Or.inr rfl))

end QueueOfi
